import Mathlib

/-!
Verification of the vue-menu repository's menu registry, tree utilities and
permission filter against its natural-language specification.

The TypeScript sources are shallowly embedded:
* `MenuItemConfig` (src/types/menu.ts) becomes an inductive tree type; the
  `icon` and `meta` fields are uninterpreted by every operation treated here and are
  omitted from the embedding.
* JavaScript `Map` objects (insertion ordered) become association lists.
* JavaScript numbers used as `order` values become `Int`; `a.order ?? Number.MAX_SAFE_INTEGER`
  becomes `Option.getD maxSafeInteger`.
* `Array.prototype.sort` with the comparator `orderA - orderB` is, by the
  ECMAScript specification, a stable sort consistent with the total preorder
  `effOrder a ≤ effOrder b`; a stable sort's output is uniquely determined by
  that preorder and the input order, so it is embedded as `List.insertionSort`
  (which is stable for this relation).
* In-place mutation becomes state passing: registry methods take and return a
  registry value; all embedded operations are total Lean functions, mirroring
  the source's freedom from thrown exceptions.
* `String.prototype.toLowerCase` / `String.prototype.includes` are embedded as
  `String.toLower` and list-infix containment, faithful on ASCII data.
-/

namespace VueMenu

/-- Number.MAX_SAFE_INTEGER, the default sort key used by `sortMenuItems`
for items whose `order` field is absent (src lines: `a.order ?? Number.MAX_SAFE_INTEGER`). -/
def maxSafeInteger : Int := 9007199254740991

/-- Embedding of the `MenuItemConfig` interface from src/types/menu.ts.
The `icon` and `meta` fields are uninterpreted by every operation verified
here and are omitted. `children` is `Option (List _)` because the source
distinguishes an absent `children` field from an empty array (JS truthiness:
`!item.children` is false for `[]`). -/
inductive MenuItemConfig : Type where
  | mk (id title : String) (path : Option String)
       (children : Option (List MenuItemConfig))
       (order : Option Int) (permission : Option String)

/-- The `id` field of a menu item. -/
def MenuItemConfig.id : MenuItemConfig → String
  | .mk i _ _ _ _ _ => i

/-- The `title` field of a menu item. -/
def MenuItemConfig.title : MenuItemConfig → String
  | .mk _ t _ _ _ _ => t

/-- The `path` field of a menu item. -/
def MenuItemConfig.path : MenuItemConfig → Option String
  | .mk _ _ p _ _ _ => p

/-- The `children` field of a menu item. -/
def MenuItemConfig.children : MenuItemConfig → Option (List MenuItemConfig)
  | .mk _ _ _ cs _ _ => cs

/-- The `order` field of a menu item. -/
def MenuItemConfig.order : MenuItemConfig → Option Int
  | .mk _ _ _ _ o _ => o

/-- The `permission` field of a menu item. -/
def MenuItemConfig.permission : MenuItemConfig → Option String
  | .mk _ _ _ _ _ pm => pm

/-- Effective sort key of an item: `a.order ?? Number.MAX_SAFE_INTEGER`
(src/config/menuRegistry.ts line 91, src/index.ts line 143). -/
def effOrder (m : MenuItemConfig) : Int := m.order.getD maxSafeInteger

/-- The total preorder induced by the JS comparator `(a, b) => orderA - orderB`:
`a` may stay before `b` exactly when `effOrder a ≤ effOrder b`. -/
def orderLE (a b : MenuItemConfig) : Prop := effOrder a ≤ effOrder b

instance : DecidableRel orderLE := fun _ _ => inferInstanceAs (Decidable (_ ≤ _))

instance : IsTotal MenuItemConfig orderLE := ⟨fun a b => le_total (effOrder a) (effOrder b)⟩

instance : IsTrans MenuItemConfig orderLE := ⟨fun _ _ _ h h' => le_trans h h'⟩

mutual

/-- Pre-order (node before its children, children left to right) flattening of
a menu tree; the traversal order shared by `findMenuItemById`, the `search`
helper of `searchMenusByTitle` and the `validateItem` helper of `validateMenus`. -/
def preorder : MenuItemConfig → List MenuItemConfig
  | .mk i t p cs o pm => .mk i t p cs o pm :: preorderOpt cs

/-- Pre-order flattening of an optional children list. -/
def preorderOpt : Option (List MenuItemConfig) → List MenuItemConfig
  | none => []
  | some l => preorderList l

/-- Pre-order flattening of a children list. -/
def preorderList : List MenuItemConfig → List MenuItemConfig
  | [] => []
  | c :: cs => preorder c ++ preorderList cs

end

mutual

/-- Embedding of `findMenuItemById` (src/index.ts lines 37-56): the inner
`search` closure returns the item itself when its `id` matches, otherwise the
first successful recursive search over the children in order. -/
def findMenuItemById : MenuItemConfig → String → Option MenuItemConfig
  | .mk id' t p cs o pm, i =>
    if id' = i then some (.mk id' t p cs o pm)
    else findInChildren cs i

/-- The `if (item.children) { for (const child of item.children) ... }` part of
the `search` closure of `findMenuItemById`. -/
def findInChildren : Option (List MenuItemConfig) → String → Option MenuItemConfig
  | none, _ => none
  | some l, i => findInList l i

/-- The `for` loop of the `search` closure of `findMenuItemById`: first
non-`none` recursive result wins. -/
def findInList : List MenuItemConfig → String → Option MenuItemConfig
  | [], _ => none
  | c :: cs, i =>
    match findMenuItemById c i with
    | some found => some found
    | none => findInList cs i

end

/-- A permutation of a list preserves its automatically generated size; the
termination argument of `sortMenuItems` needs this for the sorted children. -/
def permSizeOfEq {α : Type} [SizeOf α] : ∀ {l₁ l₂ : List α}, List.Perm l₁ l₂ →
    sizeOf l₁ = sizeOf l₂ := fun h => by
  induction h with
  | nil => rfl
  | cons x _ ih => simp [ih]
  | swap x y l => simp; omega
  | trans _ _ ih₁ ih₂ => omega

mutual

/-- Embedding of the private `sortMenuItems` (src/config/menuRegistry.ts lines
88-99 and, identically, src/index.ts lines 140-151): children, when present
and nonempty, are stably sorted by the comparator `orderA - orderB` with
absent `order` read as `Number.MAX_SAFE_INTEGER`, then each child is sorted
recursively.  `List.insertionSort` is the stable sort standing in for
`Array.prototype.sort` (see the file header). -/
def sortMenuItems : MenuItemConfig → MenuItemConfig
  | .mk i t p cs o pm => .mk i t p (sortChildrenOpt cs) o pm
termination_by m => sizeOf m
decreasing_by all_goals (simp; try omega)

/-- Children sorting step of `sortMenuItems`: the guard
`if (menu.children && menu.children.length > 0)` is a no-op on `none` and on
an empty list (sorting an empty list leaves it empty), so it is dropped. -/
def sortChildrenOpt : Option (List MenuItemConfig) → Option (List MenuItemConfig)
  | none => none
  | some l => some (sortChildrenList (List.insertionSort orderLE l))
termination_by cs => sizeOf cs
decreasing_by
  have h := permSizeOfEq (List.perm_insertionSort orderLE l)
  simp [h]; try omega

/-- The `menu.children.forEach((child) => this.sortMenuItems(child))`
recursion of `sortMenuItems`, applied after the children list is sorted. -/
def sortChildrenList : List MenuItemConfig → List MenuItemConfig
  | [] => []
  | c :: cs => sortMenuItems c :: sortChildrenList cs
termination_by l => sizeOf l
decreasing_by all_goals (simp; try omega)

end

/-- The `MenuBuilder` interface (src/types/menu.ts lines 49-57): a single
operation `build(menu, menuName)` returning the updated menu. -/
def MenuBuilder : Type := MenuItemConfig → String → MenuItemConfig

/-- Lookup in a JS `Map` embedded as an insertion-ordered association list:
`Map.prototype.get` (first — and by construction only — entry with the key). -/
def alistLookup {α : Type} : List (String × α) → String → Option α
  | [], _ => none
  | (k, v) :: l, key => if k = key then some v else alistLookup l key

/-- `Map.prototype.set`: replace the value of an existing key in place,
otherwise append the new entry at the end (JS Maps preserve insertion order). -/
def alistSet {α : Type} : List (String × α) → String → α → List (String × α)
  | [], key, v => [(key, v)]
  | (k, w) :: l, key, v =>
    if k = key then (key, v) :: l else (k, w) :: alistSet l key v

/-- `Map.prototype.delete` (entry removal); also reports nothing — callers use
`alistHas` for the deletion result where the source uses it. -/
def alistErase {α : Type} (l : List (String × α)) (key : String) : List (String × α) :=
  l.filter (fun kv => !(kv.1 = key))

/-- `Map.prototype.has`. -/
def alistHas {α : Type} (l : List (String × α)) (key : String) : Bool :=
  (alistLookup l key).isSome

/-- The empty menu seed `{ id: menuName, title: menuName, children: [] }` that
`getMenu` folds the builders over on a cache miss. -/
def seedMenu (menuName : String) : MenuItemConfig :=
  .mk menuName menuName none (some []) none none

/-- State of the scoped `MenuRegistry` (src/config/menuRegistry.ts): builders
keyed by menu name, the built-menu cache, and the `menuUpdateTrigger` ref. -/
structure ScopedRegistry : Type where
  builders : List (String × List MenuBuilder)
  menuCache : List (String × MenuItemConfig)
  trigger : Nat

/-- The freshly constructed scoped registry singleton with `menuUpdateTrigger`
starting at 0. -/
def sInit : ScopedRegistry := ⟨[], [], 0⟩

/-- Scoped `register(menuName, builder)` (src/config/menuRegistry.ts lines
23-34): ensure a (possibly empty) list for the name, push the builder,
invalidate that name's cache entry, increment the trigger. -/
def ScopedRegistry.register (s : ScopedRegistry) (menuName : String) (b : MenuBuilder) :
    ScopedRegistry :=
  let bl := (alistLookup s.builders menuName).getD []
  { builders := alistSet s.builders menuName (bl ++ [b])
    menuCache := alistErase s.menuCache menuName
    trigger := s.trigger + 1 }

/-- Scoped `unregister(menuName)` (src/config/menuRegistry.ts lines 40-43):
delete the cache entry, then delete and report the builders entry.  Note that
this method does not touch `menuUpdateTrigger`. -/
def ScopedRegistry.unregister (s : ScopedRegistry) (menuName : String) :
    Bool × ScopedRegistry :=
  (alistHas s.builders menuName,
   { builders := alistErase s.builders menuName
     menuCache := alistErase s.menuCache menuName
     trigger := s.trigger })

/-- Builders registered for a name in the scoped registry, as the list the
`getMenu` fold runs over (`undefined` and a missing list both mean none). -/
def buildersOf (s : ScopedRegistry) (menuName : String) : List MenuBuilder :=
  (alistLookup s.builders menuName).getD []

/-- The tree a cache-miss rebuild produces: fold every builder over the seed
in registration order, then sort recursively. -/
def buildMenu (bs : List MenuBuilder) (menuName : String) : MenuItemConfig :=
  sortMenuItems (bs.foldl (fun m b => b m menuName) (seedMenu menuName))

/-- Traced result of a scoped `getMenu` call: the returned value, the registry
state afterwards, how many builder `build` calls ran, and whether the
recursive sorting pass ran. -/
structure GetMenuResult : Type where
  menuResult : Option MenuItemConfig
  state : ScopedRegistry
  buildersRan : Nat
  sortPassRan : Bool

/-- Scoped `getMenu(menuName)` (src/config/menuRegistry.ts lines 51-82):
cache hit returns the cached tree untouched; with no builders for the name the
result is `undefined`; otherwise fold the builders over the seed, sort,
cache and return. -/
def ScopedRegistry.getMenu (s : ScopedRegistry) (menuName : String) : GetMenuResult :=
  match alistLookup s.menuCache menuName with
  | some m => ⟨some m, s, 0, false⟩
  | none =>
    let bs := buildersOf s menuName
    if bs.isEmpty then ⟨none, s, 0, false⟩
    else
      let menu := buildMenu bs menuName
      ⟨some menu,
       { s with menuCache := alistSet s.menuCache menuName menu },
       bs.length, true⟩

/-- Scoped `getMenuNames()` (src/config/menuRegistry.ts lines 105-107): the
keys of the builders map, in insertion order. -/
def ScopedRegistry.getMenuNames (s : ScopedRegistry) : List String :=
  s.builders.map Prod.fst

/-- Scoped `clear()` (src/config/menuRegistry.ts lines 112-115): drop all
builders and all cached trees; `menuUpdateTrigger` is not touched. -/
def ScopedRegistry.clear (s : ScopedRegistry) : ScopedRegistry :=
  ⟨[], [], s.trigger⟩

/-- One public mutating operation on the scoped registry (the `size` getter
and `getMenuNames` read nothing mutable). -/
inductive SOp : Type where
  | register (menuName : String) (b : MenuBuilder)
  | unregister (menuName : String)
  | getMenu (menuName : String)
  | clear

/-- Apply one scoped-registry operation to the state. -/
def sStep (s : ScopedRegistry) : SOp → ScopedRegistry
  | .register n b => s.register n b
  | .unregister n => (s.unregister n).2
  | .getMenu n => (s.getMenu n).state
  | .clear => s.clear

/-- Run a sequence of scoped-registry operations from the singleton's initial
state. -/
def sRun (ops : List SOp) : ScopedRegistry := ops.foldl sStep sInit

/-- A scoped registry state the exported singleton can actually be in. -/
def SReachable (s : ScopedRegistry) : Prop := ∃ ops, sRun ops = s

/-- A builder held by the unscoped registry (src/index.ts).  `bid` is a
surrogate for JS object identity, which `unregister`'s `indexOf` compares by. -/
structure UBuilder : Type where
  bid : Nat
  build : MenuItemConfig → String → MenuItemConfig

/-- State of the unscoped `MenuRegistry` (src/index.ts): a flat builder list,
the built-menu cache, and the `menuUpdateTrigger` ref. -/
structure UnscopedRegistry : Type where
  builders : List UBuilder
  menuCache : List (String × MenuItemConfig)
  trigger : Nat

/-- The freshly constructed unscoped registry singleton. -/
def uInit : UnscopedRegistry := ⟨[], [], 0⟩

/-- Unscoped `register(builder)` (src/index.ts lines 78-86): push the builder,
clear the whole cache, increment the trigger. -/
def UnscopedRegistry.register (s : UnscopedRegistry) (b : UBuilder) : UnscopedRegistry :=
  ⟨s.builders ++ [b], [], s.trigger + 1⟩

/-- Unscoped `unregister(builder)` (src/index.ts lines 92-101): find the
builder by identity; when found splice it out, clear the whole cache,
increment the trigger and return true, otherwise change nothing and return
false. -/
def UnscopedRegistry.unregister (s : UnscopedRegistry) (b : UBuilder) :
    Bool × UnscopedRegistry :=
  match s.builders.findIdx? (fun x => x.bid = b.bid) with
  | some i => (true, ⟨s.builders.eraseIdx i, [], s.trigger + 1⟩)
  | none => (false, s)

/-- The tree an unscoped cache-miss rebuild produces: fold every registered
builder over the seed (builders are not name-filtered), then sort. -/
def uBuildMenu (bs : List UBuilder) (menuName : String) : MenuItemConfig :=
  sortMenuItems (bs.foldl (fun m b => b.build m menuName) (seedMenu menuName))

/-- Traced result of an unscoped `getMenu` call; the return value is always a
tree. -/
structure UGetMenuResult : Type where
  menu : MenuItemConfig
  state : UnscopedRegistry
  buildersRan : Nat
  sortPassRan : Bool

/-- Unscoped `getMenu(menuName)` (src/index.ts lines 109-134): cache hit
returns the cached tree; otherwise fold all builders over the seed, sort,
cache and return — the cache is filled even when no builder is registered. -/
def UnscopedRegistry.getMenu (s : UnscopedRegistry) (menuName : String) : UGetMenuResult :=
  match alistLookup s.menuCache menuName with
  | some m => ⟨m, s, 0, false⟩
  | none =>
    let menu := uBuildMenu s.builders menuName
    ⟨menu,
     { s with menuCache := alistSet s.menuCache menuName menu },
     s.builders.length, true⟩

/-- Unscoped `getMenuNames()` (src/index.ts lines 167-169): the keys of the
cache, in insertion order. -/
def UnscopedRegistry.getMenuNames (s : UnscopedRegistry) : List String :=
  s.menuCache.map Prod.fst

/-- Unscoped `clear()` (src/index.ts lines 174-177): drop builders and cache,
leave the trigger alone. -/
def UnscopedRegistry.clear (s : UnscopedRegistry) : UnscopedRegistry :=
  ⟨[], [], s.trigger⟩

/-- One public mutating operation on the unscoped registry. -/
inductive UOp : Type where
  | register (b : UBuilder)
  | unregister (b : UBuilder)
  | getMenu (menuName : String)
  | clear

/-- Apply one unscoped-registry operation to the state. -/
def uStep (s : UnscopedRegistry) : UOp → UnscopedRegistry
  | .register b => s.register b
  | .unregister b => (s.unregister b).2
  | .getMenu n => (s.getMenu n).state
  | .clear => s.clear

/-- Run a sequence of unscoped-registry operations from the initial state. -/
def uRun (ops : List UOp) : UnscopedRegistry := ops.foldl uStep uInit

/-- An unscoped registry state the exported singleton can actually be in. -/
def UReachable (s : UnscopedRegistry) : Prop := ∃ ops, uRun ops = s

/-- JS truthiness of an optional string field (`undefined` and `""` falsy). -/
def strTruthy : Option String → Bool
  | none => false
  | some s => !(s = "")

/-- The guard `item.children && item.children.length > 0` of `validateItem`:
children present and nonempty. -/
def childrenNonempty : Option (List MenuItemConfig) → Bool
  | none => false
  | some l => !l.isEmpty

/-- Accumulator threaded through `validateItem` (src/types/menu.ts lines
113-125): the per-menu `seenIds` set and the run-wide `errors` and `warnings`
arrays. -/
structure VAcc : Type where
  seen : List String
  errors : List String
  warnings : List String

/-- The duplicate-id error string of `validateItem`. -/
def dupIdError (i currentPath : String) : String :=
  "Duplicate menu ID: \"" ++ i ++ "\" at " ++ currentPath

/-- The children-and-path warning string of `validateItem`. -/
def bothWarning (i : String) : String :=
  "Menu item \"" ++ i ++ "\" has both children and a path. This might be intentional."

/-- The dead-leaf warning string of `validateItem`. -/
def leafWarning (i currentPath : String) : String :=
  "Menu item \"" ++ i ++ "\" has no children and no path at " ++ currentPath

mutual

/-- Embedding of the `validateItem` closure of `validateMenus`
(src/types/menu.ts lines 127-151): per node, in order — duplicate-id check
against `seenIds`, the both-children-and-path warning (guard
`item.children && item.children.length > 0 && item.path`), the dead-leaf
warning (guard `!item.children && !item.path`), then recursion into the
children when the field is present. -/
def validateItem : MenuItemConfig → List String → VAcc → VAcc
  | .mk i _ p cs _ _, path, acc =>
    let currentPath := String.intercalate " > " (path ++ [i])
    let acc1 :=
      if i ∈ acc.seen then
        { acc with errors := acc.errors ++ [dupIdError i currentPath] }
      else { acc with seen := acc.seen ++ [i] }
    let acc2 :=
      if childrenNonempty cs && strTruthy p then
        { acc1 with warnings := acc1.warnings ++ [bothWarning i] }
      else acc1
    let acc3 :=
      if cs.isNone && !(strTruthy p) then
        { acc2 with warnings := acc2.warnings ++ [leafWarning i currentPath] }
      else acc2
    validateOptChildren cs (path ++ [i]) acc3

/-- The `if (item.children) { item.children.forEach(...) }` recursion step of
`validateItem`. -/
def validateOptChildren : Option (List MenuItemConfig) → List String → VAcc → VAcc
  | none, _, acc => acc
  | some l, path, acc => validateList l path acc

/-- The `forEach` over a children list inside `validateItem`. -/
def validateList : List MenuItemConfig → List String → VAcc → VAcc
  | [], _, acc => acc
  | c :: cs, path, acc => validateList cs path (validateItem c path acc)

end

/-- The structured result of `validateMenus` (src/types/menu.ts lines
108-112). -/
structure ValidationResult : Type where
  valid : Bool
  errors : List String
  warnings : List String

/-- The per-menu loop of `validateMenus` (src/types/menu.ts lines 118-154):
each menu name is fetched through `getMenu` (threading the registry cache
state), a fresh `seenIds` set is used per menu, and errors and warnings
accumulate across menus.  A name whose `getMenu` is `undefined` contributes
the registered-but-undefined error. -/
def validateMenusLoop :
    List String → ScopedRegistry → List String → List String →
    (List String × List String) × ScopedRegistry
  | [], s, errs, warns => ((errs, warns), s)
  | n :: ns, s, errs, warns =>
    let r := s.getMenu n
    match r.menuResult with
    | none =>
      validateMenusLoop ns r.state
        (errs ++ ["Menu \"" ++ n ++ "\" is registered but returns undefined"]) warns
    | some menu =>
      let acc := validateItem menu [] ⟨[], errs, warns⟩
      validateMenusLoop ns r.state acc.errors acc.warnings

/-- Embedding of `validateMenus` (src/types/menu.ts lines 108-169): walk every
menu from `getMenuNames()`, validate each tree, and return the structured
result (`valid` is `errors.length === 0`); console logging is a side effect
outside the returned value and is not modelled.  The registry state after the
`getMenu` calls is returned alongside. -/
def validateMenus (s : ScopedRegistry) : ValidationResult × ScopedRegistry :=
  let r := validateMenusLoop s.getMenuNames s [] []
  (⟨r.1.1.isEmpty, r.1.1, r.1.2⟩, r.2)

/-- Embedding of `String.prototype.toLowerCase` as a per-character map (which
is what it does on the ASCII data of this package). -/
def lowerChars (s : String) : List Char := s.toList.map Char.toLower

/-- Case-insensitive-match helper: `title.toLowerCase().includes(lowerSearch)`
embedded as list-infix containment of the lowercased character lists. -/
def titleMatches (lowerSearch : List Char) (title : String) : Bool :=
  decide (lowerSearch <:+: lowerChars title)

mutual

/-- The `search` closure of `searchMenusByTitle` (src/types/menu.ts lines
219-227): push the node on a title match, then recurse into the children when
the field is present; pre-order, no deduplication. -/
def searchItem :
    MenuItemConfig → String → List Char → List (String × MenuItemConfig) →
    List (String × MenuItemConfig)
  | .mk i t p cs o pm, menuName, lowerSearch, results =>
    let results1 :=
      if titleMatches lowerSearch t then results ++ [(menuName, .mk i t p cs o pm)]
      else results
    searchOptChildren cs menuName lowerSearch results1

/-- The `if (item.children)` recursion step of the `search` closure. -/
def searchOptChildren :
    Option (List MenuItemConfig) → String → List Char → List (String × MenuItemConfig) →
    List (String × MenuItemConfig)
  | none, _, _, results => results
  | some l, menuName, lowerSearch, results => searchList l menuName lowerSearch results

/-- The `forEach` over a children list inside the `search` closure. -/
def searchList :
    List MenuItemConfig → String → List Char → List (String × MenuItemConfig) →
    List (String × MenuItemConfig)
  | [], _, _, results => results
  | c :: cs, menuName, lowerSearch, results =>
    searchList cs menuName lowerSearch (searchItem c menuName lowerSearch results)

end

/-- The per-menu loop of `searchMenusByTitle`, threading the registry state
through the `getMenu` calls; a name whose menu is `undefined` is skipped. -/
def searchMenusLoop :
    List String → ScopedRegistry → List Char → List (String × MenuItemConfig) →
    List (String × MenuItemConfig) × ScopedRegistry
  | [], s, _, results => (results, s)
  | n :: ns, s, lowerSearch, results =>
    let r := s.getMenu n
    match r.menuResult with
    | none => searchMenusLoop ns r.state lowerSearch results
    | some menu => searchMenusLoop ns r.state lowerSearch (searchItem menu n lowerSearch results)

/-- Embedding of `searchMenusByTitle(searchTerm)` (src/types/menu.ts lines
209-233): lowercase the term once, then collect `{ menuName, item }` matches
across every menu of `getMenuNames()` in traversal order. -/
def searchMenusByTitle (s : ScopedRegistry) (searchTerm : String) :
    List (String × MenuItemConfig) × ScopedRegistry :=
  searchMenusLoop s.getMenuNames s (lowerChars searchTerm) []

/-- Embedding of `filterByPermission(items, userPermissions)` from the
`useMenu` composable (src/unnamed/part_000 lines 40-47): with no permission
list the items are returned unchanged; otherwise an item is kept when
`!item.permission` (absent or empty string, by JS truthiness) or when the
permission is contained in the supplied list. -/
def filterByPermission (items : List MenuItemConfig)
    (userPermissions : Option (List String)) : List MenuItemConfig :=
  match userPermissions with
  | none => items
  | some perms =>
    items.filter (fun item =>
      match item.permission with
      | none => true
      | some p => if p = "" then true else perms.contains p)

/-- Invariant of every reachable scoped-registry state: every builders entry
is a nonempty list (register always pushes), and every cache entry is exactly
the rebuild from the current builders for its name (every mutation of a
name's builders deletes that name's cache entry first). -/
def SInv (s : ScopedRegistry) : Prop :=
  (∀ n l, alistLookup s.builders n = some l → l ≠ []) ∧
  (∀ n m, alistLookup s.menuCache n = some m →
    buildersOf s n ≠ [] ∧ m = buildMenu (buildersOf s n) n)

/-- Invariant of every reachable unscoped-registry state: every cache entry is
the rebuild from the current builder list (register, a successful unregister
and clear all empty the whole cache). -/
def UInv (s : UnscopedRegistry) : Prop :=
  ∀ n m, alistLookup s.menuCache n = some m → m = uBuildMenu s.builders n

/-- The sortedness half of the testable sort property: at every node of the
tree (every member of its pre-order flattening), the children list is sorted
by the effective order key `order ?? Number.MAX_SAFE_INTEGER`. -/
def SortedEff (t : MenuItemConfig) : Prop :=
  ∀ c ∈ preorder t, List.Pairwise orderLE (c.children.getD [])

/-- The claim's ordering requirement on a children list, as stated: every
item with an absent `order` sits after every item with a present `order`. -/
def absentOrderLast (l : List MenuItemConfig) : Prop :=
  ∀ i j : Fin l.length,
    (l.get i).order = none → (l.get j).order ≠ none → (j : Nat) < (i : Nat)

/-- Concrete item with no `order` field. -/
def itemNoOrder : MenuItemConfig := .mk "a" "a" none none none none

/-- Concrete item whose `order` is exactly `Number.MAX_SAFE_INTEGER`. -/
def itemMaxOrder : MenuItemConfig := .mk "b" "b" none none (some maxSafeInteger) none

/-- Builder returning a fixed root whose children are an absent-order item
followed by a `MAX_SAFE_INTEGER`-order item. -/
def tieBuilder : MenuBuilder :=
  fun _ _ => .mk "root" "root" none (some [itemNoOrder, itemMaxOrder]) none none

/-- The registry after registering `tieBuilder` for menu `"m"`. -/
def c1State : ScopedRegistry := sRun [SOp.register "m" tieBuilder]

/-- The tree `getMenu "m"` returns on `c1State`. -/
def c1Tree : MenuItemConfig :=
  .mk "root" "root" none (some [itemNoOrder, itemMaxOrder]) none none

/-- The identity builder. -/
def idBuilder : MenuBuilder := fun m _ => m

/-- A concrete unscoped builder (identity `build`). -/
def ub1 : UBuilder := ⟨1, fun m _ => m⟩

/-- Concrete item whose `permission` is the empty string. -/
def emptyPermItem : MenuItemConfig := .mk "a" "a" none none none (some "")

/-- The keep-predicate of the amended permission-filter claim: an item passes
when its permission tag is absent or empty, or is a member of the supplied
list. -/
def amendedPermKeep (perms : List String) (i : MenuItemConfig) : Bool :=
  match i.permission with
  | none => true
  | some p => p = "" || perms.contains p

/-- Concrete item titled "User List". -/
def userItem : MenuItemConfig := .mk "users" "User List" (some "/users") none none none

/-- Concrete item titled "Settings". -/
def settingsItem : MenuItemConfig :=
  .mk "settings" "Settings" (some "/settings") none none none

/-- Builder returning a fixed "main" root with the two example items. -/
def mainBuilder : MenuBuilder :=
  fun _ _ => .mk "main" "main" none (some [userItem, settingsItem]) none none

/-- The registry after registering `mainBuilder` for menu `"main"`. -/
def c8State : ScopedRegistry := sRun [SOp.register "main" mainBuilder]

/-- The sorted tree `getMenu "main"` builds on `c8State`. -/
def c8Root : MenuItemConfig :=
  .mk "main" "main" none (some [userItem, settingsItem]) none none

/-- The id sequence of a tree in pre-order. -/
def idsOf (t : MenuItemConfig) : List String := (preorder t).map MenuItemConfig.id

/-- The id sequence of an optional children list in pre-order. -/
def idsOfOpt (cs : Option (List MenuItemConfig)) : List String :=
  (preorderOpt cs).map MenuItemConfig.id

/-- The id sequence of a children list in pre-order. -/
def idsOfList (L : List MenuItemConfig) : List String :=
  (preorderList L).map MenuItemConfig.id

/-- The `seenIds` set (as an insertion-ordered list) after processing a
sequence of ids. -/
def seenAfter : List String → List String → List String
  | [], seen => seen
  | i :: rest, seen => seenAfter rest (if i ∈ seen then seen else seen ++ [i])

/-- How many of the ids in the sequence are already seen when reached —
exactly the number of duplicate-id errors a pre-order walk reports. -/
def countDups : List String → List String → Nat
  | [], _ => 0
  | i :: rest, seen =>
    (if i ∈ seen then 1 else 0) + countDups rest (if i ∈ seen then seen else seen ++ [i])

/-- Number of warnings `validateItem` reports at one node: one when the node
has nonempty children and a truthy path, one when it has no children field
and a falsy path. -/
def codeWarnItem (c : MenuItemConfig) : Nat :=
  (if childrenNonempty c.children && strTruthy c.path then 1 else 0)
    + (if c.children.isNone && !(strTruthy c.path) then 1 else 0)

/-- Total warnings a tree walk reports. -/
def codeWarnCount (t : MenuItemConfig) : Nat := ((preorder t).map codeWarnItem).sum

/-- Total warnings over an optional children list. -/
def codeWarnOpt (cs : Option (List MenuItemConfig)) : Nat :=
  ((preorderOpt cs).map codeWarnItem).sum

/-- Total warnings over a children list. -/
def codeWarnList (L : List MenuItemConfig) : Nat :=
  ((preorderList L).map codeWarnItem).sum

/-- Per-node warning count of the claim as stated: one warning for a node
with a `children` field and a `path` field, one for a node with neither. -/
def claimWarnCount (t : MenuItemConfig) : Nat :=
  ((preorder t).map (fun c =>
    (if c.children.isSome && c.path.isSome then 1 else 0)
      + (if c.children.isNone && c.path.isNone then 1 else 0))).sum

/-- Concrete node with an empty (but present) children array and a path. -/
def emptyChildrenItem : MenuItemConfig := .mk "x" "x" (some "/x") (some []) none none

/-- Builder returning a fixed root holding `emptyChildrenItem`. -/
def c6Builder : MenuBuilder :=
  fun _ _ => .mk "root" "root" none (some [emptyChildrenItem]) none none

/-- The registry after registering `c6Builder` for menu `"m"`. -/
def c6State : ScopedRegistry := sRun [SOp.register "m" c6Builder]

/-- The sorted tree `getMenu "m"` builds on `c6State`. -/
def c6Tree : MenuItemConfig :=
  .mk "root" "root" none (some [emptyChildrenItem]) none none

/-- Concrete leaf with id "x". -/
def dupItem1 : MenuItemConfig := .mk "x" "x" (some "/x") none none none

/-- Concrete leaf that duplicates the id "x". -/
def dupItem2 : MenuItemConfig := .mk "x" "y" (some "/y") none none none

/-- Builder returning a root with two children of the same id. -/
def dupBuilder : MenuBuilder :=
  fun _ _ => .mk "root" "root" none (some [dupItem1, dupItem2]) none none

/-- The registry after registering `dupBuilder` for menu `"d"`. -/
def c6DupState : ScopedRegistry := sRun [SOp.register "d" dupBuilder]

theorem alistLookup_set_self {α : Type} (l : List (String × α)) (k : String) (v : α) :
    alistLookup (alistSet l k v) k = some v := by
  induction l with
  | nil => simp [alistSet, alistLookup]
  | cons hd tl ih =>
    obtain ⟨k₀, v₀⟩ := hd
    by_cases h : k₀ = k
    · simp [alistSet, alistLookup, h]
    · simp [alistSet, alistLookup, h, ih]

theorem alistLookup_set_ne {α : Type} (l : List (String × α)) {k k' : String} (v : α)
    (h : k' ≠ k) : alistLookup (alistSet l k v) k' = alistLookup l k' := by
  have h' : ¬(k = k') := fun e => h e.symm
  induction l with
  | nil => simp [alistSet, alistLookup, h']
  | cons hd tl ih =>
    obtain ⟨k₀, v₀⟩ := hd
    by_cases h₀ : k₀ = k
    · subst h₀
      simp [alistSet, alistLookup, h']
    · simp [alistSet, alistLookup, h₀, ih]

theorem alistLookup_erase_self {α : Type} (l : List (String × α)) (k : String) :
    alistLookup (alistErase l k) k = none := by
  induction l with
  | nil => simp [alistErase, alistLookup]
  | cons hd tl ih =>
    obtain ⟨k₀, v₀⟩ := hd
    by_cases h : k₀ = k
    · simpa [alistErase, List.filter_cons, h] using ih
    · simpa [alistErase, List.filter_cons, h, alistLookup] using ih

theorem alistLookup_erase_ne {α : Type} (l : List (String × α)) {k k' : String}
    (h : k' ≠ k) : alistLookup (alistErase l k) k' = alistLookup l k' := by
  induction l with
  | nil => simp [alistErase, alistLookup]
  | cons hd tl ih =>
    obtain ⟨k₀, v₀⟩ := hd
    by_cases h₀ : k₀ = k
    · subst h₀
      have h' : ¬(k₀ = k') := fun e => h e.symm
      simpa [alistErase, List.filter_cons, alistLookup, h'] using ih
    · simp only [alistErase] at ih
      simp [alistErase, List.filter_cons, alistLookup, h₀, ih]

theorem alistLookup_isSome_iff_mem_keys {α : Type} (l : List (String × α)) (k : String) :
    (alistLookup l k).isSome ↔ k ∈ l.map Prod.fst := by
  induction l with
  | nil => simp [alistLookup]
  | cons hd tl ih =>
    obtain ⟨k₀, v₀⟩ := hd
    by_cases h : k₀ = k
    · subst h
      simp [alistLookup]
    · have h' : ¬(k = k₀) := fun e => h e.symm
      simp [alistLookup, h, h', ih]

theorem sInit_SInv : SInv sInit := by
  constructor
  · intro n l h; simp [sInit, alistLookup] at h
  · intro n m h; simp [sInit, alistLookup] at h

theorem getMenu_hit {s : ScopedRegistry} {n : String} {m : MenuItemConfig}
    (hc : alistLookup s.menuCache n = some m) :
    s.getMenu n = ⟨some m, s, 0, false⟩ := by
  unfold ScopedRegistry.getMenu
  rw [hc]

theorem getMenu_miss_none {s : ScopedRegistry} {n : String}
    (hc : alistLookup s.menuCache n = none) (hb : buildersOf s n = []) :
    s.getMenu n = ⟨none, s, 0, false⟩ := by
  unfold ScopedRegistry.getMenu
  rw [hc]
  simp [hb]

theorem getMenu_miss_build {s : ScopedRegistry} {n : String}
    (hc : alistLookup s.menuCache n = none) (hb : buildersOf s n ≠ []) :
    s.getMenu n =
      ⟨some (buildMenu (buildersOf s n) n),
       ⟨s.builders, alistSet s.menuCache n (buildMenu (buildersOf s n) n), s.trigger⟩,
       (buildersOf s n).length, true⟩ := by
  unfold ScopedRegistry.getMenu
  rw [hc]
  simp [List.isEmpty_iff, hb]

theorem getMenu_state_builders (s : ScopedRegistry) (n : String) :
    (s.getMenu n).state.builders = s.builders := by
  cases hc : alistLookup s.menuCache n with
  | some m => rw [getMenu_hit hc]
  | none =>
    by_cases hb : buildersOf s n = []
    · rw [getMenu_miss_none hc hb]
    · rw [getMenu_miss_build hc hb]

theorem getMenu_state_trigger (s : ScopedRegistry) (n : String) :
    (s.getMenu n).state.trigger = s.trigger := by
  cases hc : alistLookup s.menuCache n with
  | some m => rw [getMenu_hit hc]
  | none =>
    by_cases hb : buildersOf s n = []
    · rw [getMenu_miss_none hc hb]
    · rw [getMenu_miss_build hc hb]

theorem buildersOf_getMenu_state (s : ScopedRegistry) (n n' : String) :
    buildersOf (s.getMenu n).state n' = buildersOf s n' := by
  unfold buildersOf
  rw [getMenu_state_builders]

theorem getMenu_menuResult {s : ScopedRegistry} (n : String) (h : SInv s) :
    (s.getMenu n).menuResult =
      if (buildersOf s n).isEmpty then none else some (buildMenu (buildersOf s n) n) := by
  cases hc : alistLookup s.menuCache n with
  | some m =>
    obtain ⟨hne, hm⟩ := h.2 n m hc
    rw [getMenu_hit hc]
    simp [List.isEmpty_iff, hne, hm]
  | none =>
    by_cases hb : buildersOf s n = []
    · rw [getMenu_miss_none hc hb]
      simp [hb]
    · rw [getMenu_miss_build hc hb]
      simp [List.isEmpty_iff, hb]

theorem SInv_getMenu (s : ScopedRegistry) (n : String) (h : SInv s) :
    SInv (s.getMenu n).state := by
  cases hc : alistLookup s.menuCache n with
  | some m => rw [getMenu_hit hc]; exact h
  | none =>
    by_cases hb : buildersOf s n = []
    · rw [getMenu_miss_none hc hb]; exact h
    · rw [getMenu_miss_build hc hb]
      refine ⟨h.1, ?_⟩
      intro n' m' hm'
      simp only at hm'
      by_cases hn : n' = n
      · subst hn
        rw [alistLookup_set_self] at hm'
        exact ⟨hb, ((Option.some.injEq _ _).mp hm').symm⟩
      · rw [alistLookup_set_ne _ _ hn] at hm'
        exact h.2 n' m' hm'

theorem SInv_step (s : ScopedRegistry) (op : SOp) (h : SInv s) : SInv (sStep s op) := by
  cases op with
  | register n b =>
    constructor
    · intro n' l hl
      simp only [sStep, ScopedRegistry.register] at hl
      by_cases hn : n' = n
      · subst hn
        rw [alistLookup_set_self] at hl
        intro e
        rw [← (Option.some.injEq _ _).mp hl] at e
        exact absurd e (by simp)
      · rw [alistLookup_set_ne _ _ hn] at hl
        exact h.1 n' l hl
    · intro n' m hm
      simp only [sStep, ScopedRegistry.register] at hm
      by_cases hn : n' = n
      · subst hn
        rw [alistLookup_erase_self] at hm
        cases hm
      · rw [alistLookup_erase_ne _ hn] at hm
        have hb : buildersOf (sStep s (SOp.register n b)) n' = buildersOf s n' := by
          simp only [sStep, ScopedRegistry.register, buildersOf]
          rw [alistLookup_set_ne _ _ hn]
        rw [hb]
        exact h.2 n' m hm
  | unregister n =>
    constructor
    · intro n' l hl
      simp only [sStep, ScopedRegistry.unregister] at hl
      by_cases hn : n' = n
      · subst hn
        rw [alistLookup_erase_self] at hl
        cases hl
      · rw [alistLookup_erase_ne _ hn] at hl
        exact h.1 n' l hl
    · intro n' m hm
      simp only [sStep, ScopedRegistry.unregister] at hm
      by_cases hn : n' = n
      · subst hn
        rw [alistLookup_erase_self] at hm
        cases hm
      · rw [alistLookup_erase_ne _ hn] at hm
        have hb : buildersOf (sStep s (SOp.unregister n)) n' = buildersOf s n' := by
          simp only [sStep, ScopedRegistry.unregister, buildersOf]
          rw [alistLookup_erase_ne _ hn]
        rw [hb]
        exact h.2 n' m hm
  | getMenu n => exact SInv_getMenu s n h
  | clear =>
    constructor
    · intro n l hl; simp [sStep, ScopedRegistry.clear, alistLookup] at hl
    · intro n m hm; simp [sStep, ScopedRegistry.clear, alistLookup] at hm

theorem SReachable_SInv {s : ScopedRegistry} (h : SReachable s) : SInv s := by
  obtain ⟨ops, rfl⟩ := h
  rw [sRun]
  induction ops using List.reverseRecOn with
  | nil => exact sInit_SInv
  | append_singleton ops op ih =>
    rw [List.foldl_append, List.foldl_cons, List.foldl_nil]
    exact SInv_step _ op ih

theorem uGetMenu_hit {s : UnscopedRegistry} {n : String} {m : MenuItemConfig}
    (hc : alistLookup s.menuCache n = some m) :
    s.getMenu n = ⟨m, s, 0, false⟩ := by
  unfold UnscopedRegistry.getMenu
  rw [hc]

theorem uGetMenu_miss {s : UnscopedRegistry} {n : String}
    (hc : alistLookup s.menuCache n = none) :
    s.getMenu n =
      ⟨uBuildMenu s.builders n,
       ⟨s.builders, alistSet s.menuCache n (uBuildMenu s.builders n), s.trigger⟩,
       s.builders.length, true⟩ := by
  unfold UnscopedRegistry.getMenu
  rw [hc]

theorem uGetMenu_state_builders (s : UnscopedRegistry) (n : String) :
    (s.getMenu n).state.builders = s.builders := by
  cases hc : alistLookup s.menuCache n with
  | some m => rw [uGetMenu_hit hc]
  | none => rw [uGetMenu_miss hc]

theorem uInit_UInv : UInv uInit := by
  intro n m h
  simp [uInit, alistLookup] at h

theorem UInv_getMenu (s : UnscopedRegistry) (n : String) (h : UInv s) :
    UInv (s.getMenu n).state := by
  cases hc : alistLookup s.menuCache n with
  | some m => rw [uGetMenu_hit hc]; exact h
  | none =>
    rw [uGetMenu_miss hc]
    intro n' m' hm'
    simp only at hm'
    by_cases hn : n' = n
    · subst hn
      rw [alistLookup_set_self] at hm'
      exact ((Option.some.injEq _ _).mp hm').symm
    · rw [alistLookup_set_ne _ _ hn] at hm'
      exact h n' m' hm'

theorem UInv_step (s : UnscopedRegistry) (op : UOp) (h : UInv s) : UInv (uStep s op) := by
  cases op with
  | register b =>
    intro n m hm
    simp [uStep, UnscopedRegistry.register, alistLookup] at hm
  | unregister b =>
    intro n m hm
    rcases hidx : s.builders.findIdx? (fun x => x.bid = b.bid) with _ | i
    · simp only [uStep, UnscopedRegistry.unregister, hidx] at hm ⊢
      exact h n m hm
    · simp only [uStep, UnscopedRegistry.unregister, hidx] at hm
      simp [alistLookup] at hm
  | getMenu n => exact UInv_getMenu s n h
  | clear =>
    intro n m hm
    simp [uStep, UnscopedRegistry.clear, alistLookup] at hm

theorem UReachable_UInv {s : UnscopedRegistry} (h : UReachable s) : UInv s := by
  obtain ⟨ops, rfl⟩ := h
  rw [uRun]
  induction ops using List.reverseRecOn with
  | nil => exact uInit_UInv
  | append_singleton ops op ih =>
    rw [List.foldl_append, List.foldl_cons, List.foldl_nil]
    exact UInv_step _ op ih

theorem sortChildrenList_eq_map (l : List MenuItemConfig) :
    sortChildrenList l = l.map sortMenuItems := by
  induction l with
  | nil => rw [sortChildrenList]; rfl
  | cons c cs ih => rw [sortChildrenList, ih]; rfl

theorem sortMenuItems_seedMenu (n : String) : sortMenuItems (seedMenu n) = seedMenu n := by
  simp [seedMenu, sortMenuItems, sortChildrenOpt, sortChildrenList]

theorem effOrder_sortMenuItems (c : MenuItemConfig) :
    effOrder (sortMenuItems c) = effOrder c := by
  obtain ⟨i, t, p, cs, o, pm⟩ := c
  rw [sortMenuItems]
  simp [effOrder, MenuItemConfig.order]

theorem mem_preorderList {c : MenuItemConfig} {L : List MenuItemConfig} :
    c ∈ preorderList L ↔ ∃ x ∈ L, c ∈ preorder x := by
  induction L with
  | nil => simp [preorderList]
  | cons x xs ih => simp [preorderList, List.mem_append, ih]

theorem sortedEff_aux (N : Nat) : ∀ t : MenuItemConfig, sizeOf t ≤ N →
    SortedEff (sortMenuItems t) := by
  induction N with
  | zero =>
    intro t h
    exfalso
    obtain ⟨i, ti, p, cs, o, pm⟩ := t
    simp at h
  | succ N ih =>
    intro t ht c hc
    obtain ⟨i, ti, p, cs, o, pm⟩ := t
    rw [sortMenuItems, preorder] at hc
    rcases List.mem_cons.mp hc with hceq | hcmem
    · subst hceq
      cases cs with
      | none => simp [sortChildrenOpt, MenuItemConfig.children]
      | some l =>
        simp only [sortChildrenOpt, MenuItemConfig.children, Option.getD]
        rw [sortChildrenList_eq_map]
        have hs : List.Pairwise orderLE (List.insertionSort orderLE l) :=
          List.sorted_insertionSort orderLE l
        exact hs.map _ (fun a b hab => by
          simpa [orderLE, effOrder_sortMenuItems] using hab)
    · cases cs with
      | none => simp [sortChildrenOpt, preorderOpt] at hcmem
      | some l =>
        simp only [sortChildrenOpt, preorderOpt] at hcmem
        rw [sortChildrenList_eq_map] at hcmem
        obtain ⟨x', hx', hcx⟩ := mem_preorderList.mp hcmem
        obtain ⟨x, hx, rfl⟩ := List.mem_map.mp hx'
        have hxl : x ∈ l := (List.mem_insertionSort orderLE).mp hx
        have hsize : sizeOf x ≤ N := by
          have h1 : sizeOf x < sizeOf l := List.sizeOf_lt_of_mem hxl
          simp at ht
          omega
        exact ih x hsize c hcx

theorem sortMenuItems_sortedEff (t : MenuItemConfig) : SortedEff (sortMenuItems t) :=
  sortedEff_aux (sizeOf t) t le_rfl

theorem buildMenu_sortedEff (bs : List MenuBuilder) (n : String) :
    SortedEff (buildMenu bs n) := sortMenuItems_sortedEff _

theorem uBuildMenu_sortedEff (bs : List UBuilder) (n : String) :
    SortedEff (uBuildMenu bs n) := sortMenuItems_sortedEff _

theorem filter_orderedInsert_key (a : MenuItemConfig) (l : List MenuItemConfig) (k : Int) :
    (List.orderedInsert orderLE a l).filter (fun c => decide (effOrder c = k))
      = if effOrder a = k then a :: l.filter (fun c => decide (effOrder c = k))
        else l.filter (fun c => decide (effOrder c = k)) := by
  induction l with
  | nil =>
    rw [List.orderedInsert]
    by_cases pa : effOrder a = k <;> simp [List.filter_cons, pa]
  | cons b l ih =>
    rw [List.orderedInsert]
    by_cases hab : orderLE a b
    · rw [if_pos hab]
      by_cases pa : effOrder a = k <;> simp [List.filter_cons, pa]
    · rw [if_neg hab]
      by_cases pa : effOrder a = k <;> by_cases pb : effOrder b = k
      · exact absurd (le_of_eq (pa.trans pb.symm)) hab
      · simp [List.filter_cons, pa, pb, ih]
      · simp [List.filter_cons, pa, pb, ih]
      · simp [List.filter_cons, pa, pb, ih]

theorem filter_insertionSort_key (l : List MenuItemConfig) (k : Int) :
    (List.insertionSort orderLE l).filter (fun c => decide (effOrder c = k))
      = l.filter (fun c => decide (effOrder c = k)) := by
  induction l with
  | nil => rfl
  | cons a l ih =>
    rw [List.insertionSort, filter_orderedInsert_key]
    by_cases pa : effOrder a = k
    · simp [List.filter_cons, pa, ih]
    · simp [List.filter_cons, pa, ih]

theorem find_aux (N : Nat) :
    (∀ t : MenuItemConfig, sizeOf t ≤ N → ∀ i,
       findMenuItemById t i = (preorder t).find? (fun c => c.id == i)) ∧
    (∀ L : List MenuItemConfig, sizeOf L ≤ N → ∀ i,
       findInList L i = (preorderList L).find? (fun c => c.id == i)) := by
  induction N with
  | zero =>
    constructor
    · intro t h
      exfalso
      obtain ⟨id', ti, p, cs, o, pm⟩ := t
      simp at h
    · intro L h
      exfalso
      cases L with
      | nil => simp at h
      | cons c cs => simp at h
  | succ N ih =>
    constructor
    · intro t ht i
      obtain ⟨id', ti, p, cs, o, pm⟩ := t
      rw [findMenuItemById, preorder, List.find?_cons]
      by_cases h : id' = i
      · simp [MenuItemConfig.id, h]
      · have hfalse : ((MenuItemConfig.mk id' ti p cs o pm).id == i) = false := by
          simp [MenuItemConfig.id, h]
        rw [hfalse]
        cases cs with
        | none => simp [findInChildren, preorderOpt, h]
        | some l =>
          have hb : sizeOf l ≤ N := by simp at ht; omega
          simp only [h, if_false, findInChildren, preorderOpt]
          exact ih.2 l hb i
    · intro L hL i
      cases L with
      | nil => simp [findInList, preorderList]
      | cons c cs =>
        have hc : sizeOf c ≤ N := by simp at hL; omega
        have hcs : sizeOf cs ≤ N := by simp at hL; omega
        rw [findInList, preorderList, List.find?_append, ih.1 c hc i, ih.2 cs hcs i]
        cases hfc : (preorder c).find? (fun x => x.id == i) with
        | some found => simp
        | none => simp

theorem findMenuItemById_eq_find? (t : MenuItemConfig) (i : String) :
    findMenuItemById t i = (preorder t).find? (fun c => c.id == i) :=
  (find_aux (sizeOf t)).1 t le_rfl i

theorem sortMenuItems_leaf (i t : String) (p : Option String) (o : Option Int)
    (pm : Option String) :
    sortMenuItems (.mk i t p none o pm) = .mk i t p none o pm := by
  rw [sortMenuItems, sortChildrenOpt]

theorem sortMenuItems_node (i t : String) (p : Option String)
    (l : List MenuItemConfig) (o : Option Int) (pm : Option String) :
    sortMenuItems (.mk i t p (some l) o pm)
      = .mk i t p (some ((List.insertionSort orderLE l).map sortMenuItems)) o pm := by
  rw [sortMenuItems, sortChildrenOpt, sortChildrenList_eq_map]

theorem buildMenu_c1_eval : buildMenu [tieBuilder] "m" = c1Tree := by
  rw [buildMenu]
  show sortMenuItems (.mk "root" "root" none (some [itemNoOrder, itemMaxOrder]) none none)
    = c1Tree
  rw [sortMenuItems_node]
  show (MenuItemConfig.mk "root" "root" none
      (some [sortMenuItems (.mk "a" "a" none none none none),
             sortMenuItems (.mk "b" "b" none none (some maxSafeInteger) none)])
      none none) = c1Tree
  rw [sortMenuItems_leaf, sortMenuItems_leaf]
  rfl

theorem c1_getMenu_eval : (c1State.getMenu "m").menuResult = some c1Tree := by
  show some (buildMenu [tieBuilder] "m") = some c1Tree
  rw [buildMenu_c1_eval]

theorem c1_builders_ne_nil : buildersOf c1State "m" ≠ [] :=
  List.cons_ne_nil tieBuilder []

theorem buildMenu_c8_eval : buildMenu [mainBuilder] "main" = c8Root := by
  rw [buildMenu]
  show sortMenuItems (.mk "main" "main" none (some [userItem, settingsItem]) none none)
    = c8Root
  rw [sortMenuItems_node]
  show (MenuItemConfig.mk "main" "main" none
      (some [sortMenuItems (.mk "users" "User List" (some "/users") none none none),
             sortMenuItems (.mk "settings" "Settings" (some "/settings") none none none)])
      none none) = c8Root
  rw [sortMenuItems_leaf, sortMenuItems_leaf]
  rfl

theorem c8_getMenu_eval : (c8State.getMenu "main").menuResult = some c8Root := by
  show some (buildMenu [mainBuilder] "main") = some c8Root
  rw [buildMenu_c8_eval]

theorem buildMenu_c6_eval : buildMenu [c6Builder] "m" = c6Tree := by
  rw [buildMenu]
  show sortMenuItems (.mk "root" "root" none (some [emptyChildrenItem]) none none) = c6Tree
  rw [sortMenuItems_node]
  show (MenuItemConfig.mk "root" "root" none
      (some [sortMenuItems (.mk "x" "x" (some "/x") (some []) none none)]) none none)
    = c6Tree
  rw [sortMenuItems_node]
  rfl

theorem c6_getMenu_eval : (c6State.getMenu "m").menuResult = some c6Tree := by
  show some (buildMenu [c6Builder] "m") = some c6Tree
  rw [buildMenu_c6_eval]

/-- Counterexample to claim C1.  The claim puts every absent-`order` item after every
present-`order` item; but an item whose `order` is exactly
`Number.MAX_SAFE_INTEGER` compares equal to absent-order items, and the
stable sort then preserves the original relative order, leaving the
absent-order item `itemNoOrder` before the present-order item `itemMaxOrder`. -/
theorem sort_absent_order_not_last :
    ((c1State.getMenu "m").menuResult = some c1Tree)
    ∧ c1Tree.children = some [itemNoOrder, itemMaxOrder]
    ∧ itemNoOrder.order = none
    ∧ itemMaxOrder.order = some maxSafeInteger
    ∧ ¬ absentOrderLast [itemNoOrder, itemMaxOrder] := by
  refine ⟨c1_getMenu_eval, rfl, rfl, rfl, ?_⟩
  intro h
  have h2 := h ⟨0, by simp⟩ ⟨1, by simp⟩
    (by simp [itemNoOrder, MenuItemConfig.order])
    (by simp [itemMaxOrder, MenuItemConfig.order])
  simp at h2

/-- Claim C1 (amended): on every reachable registry state (in particular after any
sequence of builder registrations), every tree `getMenu` returns is, at every
depth, sorted ascending by the effective key `order ?? Number.MAX_SAFE_INTEGER`
(so absent-order items come after all items with `order` below
`MAX_SAFE_INTEGER` and tie with items at exactly `MAX_SAFE_INTEGER`), and the
per-level reordering is stable: items with equal effective keys keep their
relative order (the equal-key sublists of the sorting pass are unchanged). -/
theorem getMenu_sorted_stable :
    (∀ s, SReachable s → ∀ n t, (s.getMenu n).menuResult = some t → SortedEff t)
    ∧ (∀ u, UReachable u → ∀ n, SortedEff (u.getMenu n).menu)
    ∧ (∀ (l : List MenuItemConfig) (k : Int),
        (List.insertionSort orderLE l).filter (fun c => decide (effOrder c = k))
          = l.filter (fun c => decide (effOrder c = k))) := by
  refine ⟨?_, ?_, filter_insertionSort_key⟩
  · intro s hs n t ht
    have hinv := SReachable_SInv hs
    rw [getMenu_menuResult n hinv] at ht
    by_cases hb : (buildersOf s n).isEmpty
    · rw [if_pos hb] at ht; cases ht
    · rw [if_neg hb] at ht
      obtain rfl := (Option.some.injEq _ _).mp ht
      exact buildMenu_sortedEff _ _
  · intro u hu n
    have hinv := UReachable_UInv hu
    cases hc : alistLookup u.menuCache n with
    | some m =>
      rw [uGetMenu_hit hc]
      simpa [hinv n m hc] using uBuildMenu_sortedEff u.builders n
    | none =>
      rw [uGetMenu_miss hc]
      exact uBuildMenu_sortedEff _ _

/-- Witness for the C1 amended theorem at concrete inputs. -/
theorem getMenu_sorted_stable_witness :
    SortedEff c1Tree
    ∧ (List.insertionSort orderLE [itemMaxOrder]).filter
        (fun c => decide (effOrder c = maxSafeInteger))
      = [itemMaxOrder].filter (fun c => decide (effOrder c = maxSafeInteger)) := by
  constructor
  · exact getMenu_sorted_stable.1 c1State ⟨[SOp.register "m" tieBuilder], rfl⟩ "m" c1Tree
      c1_getMenu_eval
  · exact getMenu_sorted_stable.2.2 [itemMaxOrder] maxSafeInteger

/-- Counterexample to claim C2.  The claim says unregister increments the change
counter; the scoped variant's `unregister` leaves `menuUpdateTrigger`
untouched (it only deletes the cache entry and the builders entry). -/
theorem scoped_unregister_no_trigger :
    ((sInit.register "m" idBuilder).unregister "m").1 = true
    ∧ (sInit.register "m" idBuilder).trigger = 1
    ∧ ((sInit.register "m" idBuilder).unregister "m").2.trigger = 1 := by
  exact ⟨rfl, rfl, rfl⟩

/-- Claim C2 (amended): the scoped `unregister(name)` removes the name's builders
and cache entry, leaves every other name's entries and the change counter
unchanged, and returns true iff the name had builders; the unscoped
`unregister(builder)` removes the found builder instance, clears the whole
cache, increments the change counter and returns true, or returns false
changing nothing when the instance is not registered. -/
theorem unregister_amended :
    (∀ (s : ScopedRegistry) (n : String),
      (s.unregister n).1 = alistHas s.builders n
      ∧ (s.unregister n).2.trigger = s.trigger
      ∧ alistLookup (s.unregister n).2.builders n = none
      ∧ alistLookup (s.unregister n).2.menuCache n = none
      ∧ (∀ n', n' ≠ n →
          alistLookup (s.unregister n).2.builders n' = alistLookup s.builders n'
          ∧ alistLookup (s.unregister n).2.menuCache n' = alistLookup s.menuCache n'))
    ∧ (∀ (u : UnscopedRegistry) (b : UBuilder),
        (u.builders.findIdx? (fun x => x.bid = b.bid) = none →
          u.unregister b = (false, u))
        ∧ (∀ idx, u.builders.findIdx? (fun x => x.bid = b.bid) = some idx →
            u.unregister b =
              (true, ⟨u.builders.eraseIdx idx, [], u.trigger + 1⟩))) := by
  constructor
  · intro s n
    refine ⟨rfl, rfl, alistLookup_erase_self _ _, alistLookup_erase_self _ _, ?_⟩
    intro n' hn
    exact ⟨alistLookup_erase_ne _ hn, alistLookup_erase_ne _ hn⟩
  · intro u b
    constructor
    · intro h
      unfold UnscopedRegistry.unregister
      rw [h]
    · intro idx h
      unfold UnscopedRegistry.unregister
      rw [h]

/-- Witness for the C2 amended theorem at concrete inputs. -/
theorem unregister_amended_witness :
    alistLookup ((sInit.register "m" idBuilder).unregister "m").2.builders "x"
      = alistLookup (sInit.register "m" idBuilder).builders "x"
    ∧ (uInit.register ub1).unregister ub1
      = (true, ⟨((uInit.register ub1).builders).eraseIdx 0, [],
          (uInit.register ub1).trigger + 1⟩) := by
  constructor
  · exact ((unregister_amended.1 _ "m").2.2.2.2 "x" (by decide)).1
  · exact (unregister_amended.2 _ ub1).2 0 rfl

/-- Claim C3: on every reachable state, the scoped `getMenu` returns `undefined`
exactly when no builder is registered for the name (and it is a total
function — no exception path exists in the embedding); the unscoped `getMenu`
always returns a tree, and with zero registered builders that tree is the bare
seed `{id: menuName, title: menuName, children: []}`. -/
theorem getMenu_absent_iff :
    (∀ s, SReachable s → ∀ n,
        ((s.getMenu n).menuResult = none ↔ buildersOf s n = []))
    ∧ (∀ u, UReachable u → u.builders = [] → ∀ n, (u.getMenu n).menu = seedMenu n) := by
  constructor
  · intro s hs n
    have hinv := SReachable_SInv hs
    rw [getMenu_menuResult n hinv]
    by_cases hb : (buildersOf s n).isEmpty
    · simp [hb, List.isEmpty_iff.mp hb]
    · rw [if_neg hb]
      simp only [List.isEmpty_iff] at hb
      simp [hb]
  · intro u hu hb n
    have hinv := UReachable_UInv hu
    cases hc : alistLookup u.menuCache n with
    | some m =>
      rw [uGetMenu_hit hc]
      have hm := hinv n m hc
      simp [hm, uBuildMenu, hb, sortMenuItems_seedMenu]
    | none =>
      rw [uGetMenu_miss hc]
      simp [uBuildMenu, hb, sortMenuItems_seedMenu]

/-- Witness for the C3 theorem at concrete inputs. -/
theorem getMenu_absent_iff_witness :
    ((sInit.getMenu "m").menuResult = none ↔ buildersOf sInit "m" = [])
    ∧ (uInit.getMenu "m").menu = seedMenu "m" :=
  ⟨getMenu_absent_iff.1 sInit ⟨[], rfl⟩ "m",
   getMenu_absent_iff.2 uInit ⟨[], rfl⟩ rfl "m"⟩

/-- Claim C4: a second `getMenu` call with no intervening mutation is a cache hit —
it returns the same tree, runs zero builders, performs no sorting pass, and
leaves the registry state (cache included) unchanged; with at least one
builder registered the scoped result is present. -/
theorem getMenu_second_call_cached :
    (∀ (s : ScopedRegistry) (n : String), buildersOf s n ≠ [] →
      ((s.getMenu n).state.getMenu n)
        = ⟨(s.getMenu n).menuResult, (s.getMenu n).state, 0, false⟩
      ∧ ((s.getMenu n).menuResult).isSome)
    ∧ (∀ (u : UnscopedRegistry) (n : String),
      ((u.getMenu n).state.getMenu n)
        = ⟨(u.getMenu n).menu, (u.getMenu n).state, 0, false⟩) := by
  constructor
  · intro s n hb
    cases hc : alistLookup s.menuCache n with
    | some m =>
      rw [getMenu_hit hc]
      exact ⟨getMenu_hit hc, by simp⟩
    | none =>
      rw [getMenu_miss_build hc hb]
      refine ⟨?_, by simp⟩
      exact getMenu_hit (alistLookup_set_self _ _ _)
  · intro u n
    cases hc : alistLookup u.menuCache n with
    | some m =>
      rw [uGetMenu_hit hc]
      exact uGetMenu_hit hc
    | none =>
      rw [uGetMenu_miss hc]
      exact uGetMenu_hit (alistLookup_set_self _ _ _)

/-- Witness for the C4 theorem at concrete inputs. -/
theorem getMenu_second_call_cached_witness :
    ((c1State.getMenu "m").state.getMenu "m")
      = ⟨(c1State.getMenu "m").menuResult, (c1State.getMenu "m").state, 0, false⟩ := by
  exact (getMenu_second_call_cached.1 c1State "m" c1_builders_ne_nil).1

/-- Claim C5: `findMenuItemById` is exactly the first match of a depth-first
pre-order traversal — it equals `find?` on the pre-order flattening (so
duplicate ids resolve to the first in pre-order), and it is absent exactly
when no node carries the id. -/
theorem findMenuItemById_preorder_spec :
    ∀ (t : MenuItemConfig) (i : String),
      findMenuItemById t i = (preorder t).find? (fun c => c.id == i)
      ∧ (findMenuItemById t i = none ↔ ∀ c ∈ preorder t, c.id ≠ i) := by
  intro t i
  refine ⟨findMenuItemById_eq_find? t i, ?_⟩
  rw [findMenuItemById_eq_find? t i, List.find?_eq_none]
  simp

/-- Counterexample to claim C7.  The claim keeps exactly the items with no permission
tag or a tag in the supplied list; an item whose tag is the empty string is
kept by the code (JS falsiness of `""`) although it carries a tag not in the
list. -/
theorem filterByPermission_empty_permission :
    filterByPermission [emptyPermItem] (some ["admin"]) = [emptyPermItem]
    ∧ ¬(emptyPermItem.permission = none
        ∨ ∃ p, emptyPermItem.permission = some p ∧ p ∈ ["admin"]) := by
  constructor
  · rfl
  · intro h
    rcases h with h | ⟨p, hp, hmem⟩
    · simp [emptyPermItem, MenuItemConfig.permission] at h
    · simp [emptyPermItem, MenuItemConfig.permission] at hp
      subst hp
      simp at hmem

/-- Claim C7 (amended): with no permission list supplied the items are returned
unchanged; otherwise exactly the items whose permission tag is absent or
empty, or contained in the supplied list, are kept — in their original order
(the result is a sublist of the input). -/
theorem filterByPermission_amended :
    (∀ items, filterByPermission items none = items)
    ∧ (∀ items perms, filterByPermission items (some perms)
        = items.filter (amendedPermKeep perms))
    ∧ (∀ items up, (filterByPermission items up).Sublist items) := by
  refine ⟨fun items => rfl, ?_, ?_⟩
  · intro items perms
    unfold filterByPermission
    apply List.filter_congr
    intro x _
    unfold amendedPermKeep
    cases hp : x.permission with
    | none => rfl
    | some p =>
      by_cases he : p = "" <;> simp [he]
  · intro items up
    cases up with
    | none => exact List.Sublist.refl _
    | some perms => exact List.filter_sublist _

/-- Claim C9: the change counter never decreases under any registry operation of
either variant, and `clear()` drops all builders and all cached trees while
leaving the counter's value unchanged. -/
theorem trigger_monotone_clear_keeps :
    (∀ (s : ScopedRegistry) (op : SOp), s.trigger ≤ (sStep s op).trigger)
    ∧ (∀ (u : UnscopedRegistry) (op : UOp), u.trigger ≤ (uStep u op).trigger)
    ∧ (∀ s : ScopedRegistry,
        s.clear.trigger = s.trigger ∧ s.clear.builders = [] ∧ s.clear.menuCache = [])
    ∧ (∀ u : UnscopedRegistry,
        u.clear.trigger = u.trigger ∧ u.clear.builders = [] ∧ u.clear.menuCache = []) := by
  refine ⟨?_, ?_, fun s => ⟨rfl, rfl, rfl⟩, fun u => ⟨rfl, rfl, rfl⟩⟩
  · intro s op
    cases op with
    | register n b => simp [sStep, ScopedRegistry.register]
    | unregister n => simp [sStep, ScopedRegistry.unregister]
    | getMenu n => exact le_of_eq (getMenu_state_trigger s n).symm
    | clear => simp [sStep, ScopedRegistry.clear]
  · intro u op
    cases op with
    | register b => simp [uStep, UnscopedRegistry.register]
    | unregister b =>
      rw [uStep]
      rcases h : u.builders.findIdx? (fun x => x.bid = b.bid) with _ | i
      · simp [UnscopedRegistry.unregister, h]
      · simp [UnscopedRegistry.unregister, h]
    | getMenu n =>
      rw [uStep]
      cases hc : alistLookup u.menuCache n with
      | some m => rw [uGetMenu_hit hc]
      | none => rw [uGetMenu_miss hc]
    | clear => simp [uStep, UnscopedRegistry.clear]

/-- Claim C10: an unscoped `getMenu` on a cache miss inserts the built tree into
the cache even with zero registered builders; afterwards the queried name is
in `getMenuNames()`, and it stays there across further `getMenu` calls (only
register, a successful unregister and clear empty the cache). -/
theorem unscoped_getMenu_populates_cache :
    (∀ (u : UnscopedRegistry) (n : String), alistLookup u.menuCache n = none →
        alistLookup ((u.getMenu n).state).menuCache n = some (uBuildMenu u.builders n))
    ∧ (∀ (u : UnscopedRegistry) (n : String), n ∈ ((u.getMenu n).state).getMenuNames)
    ∧ (∀ (u : UnscopedRegistry) (n other : String), n ∈ u.getMenuNames →
        n ∈ ((u.getMenu other).state).getMenuNames) := by
  refine ⟨?_, ?_, ?_⟩
  · intro u n hc
    rw [uGetMenu_miss hc]
    exact alistLookup_set_self _ _ _
  · intro u n
    unfold UnscopedRegistry.getMenuNames
    refine (alistLookup_isSome_iff_mem_keys _ _).mp ?_
    cases hc : alistLookup u.menuCache n with
    | some m => rw [uGetMenu_hit hc]; simp [hc]
    | none => rw [uGetMenu_miss hc]; simp [alistLookup_set_self]
  · intro u n other hmem
    unfold UnscopedRegistry.getMenuNames at hmem ⊢
    have h1 : (alistLookup u.menuCache n).isSome :=
      (alistLookup_isSome_iff_mem_keys _ _).mpr hmem
    refine (alistLookup_isSome_iff_mem_keys _ _).mp ?_
    cases hc : alistLookup u.menuCache other with
    | some m => rw [uGetMenu_hit hc]; exact h1
    | none =>
      rw [uGetMenu_miss hc]
      by_cases hn : n = other
      · subst hn; simp [alistLookup_set_self]
      · simp only []
        rw [alistLookup_set_ne _ _ hn]
        exact h1

/-- Witness for the C10 theorem at concrete inputs (zero builders). -/
theorem unscoped_getMenu_populates_cache_witness :
    alistLookup ((uInit.getMenu "m").state).menuCache "m" = some (uBuildMenu [] "m")
    ∧ "m" ∈ (((uInit.getMenu "m").state.getMenu "x").state).getMenuNames :=
  ⟨unscoped_getMenu_populates_cache.1 uInit "m" rfl,
   unscoped_getMenu_populates_cache.2.2 _ "m" "x"
     (unscoped_getMenu_populates_cache.2.1 uInit "m")⟩

theorem search_aux (N : Nat) :
    (∀ t : MenuItemConfig, sizeOf t ≤ N → ∀ mn q res,
      searchItem t mn q res
        = res ++ ((preorder t).filter (fun c => titleMatches q c.title)).map
            (fun c => (mn, c))) ∧
    (∀ L : List MenuItemConfig, sizeOf L ≤ N → ∀ mn q res,
      searchList L mn q res
        = res ++ ((preorderList L).filter (fun c => titleMatches q c.title)).map
            (fun c => (mn, c))) := by
  induction N with
  | zero =>
    constructor
    · intro t h
      exfalso
      obtain ⟨id', ti, p, cs, o, pm⟩ := t
      simp at h
    · intro L h
      exfalso
      cases L with
      | nil => simp at h
      | cons c cs => simp at h
  | succ N ih =>
    constructor
    · intro t ht mn q res
      obtain ⟨id', ti, p, cs, o, pm⟩ := t
      rw [searchItem, preorder, List.filter_cons]
      cases cs with
      | none =>
        rw [searchOptChildren]
        by_cases hm : titleMatches q (MenuItemConfig.mk id' ti p none o pm).title
        · simp [MenuItemConfig.title] at hm
          simp [preorderOpt, MenuItemConfig.title, hm]
        · simp [MenuItemConfig.title] at hm
          simp [preorderOpt, MenuItemConfig.title, hm]
      | some l =>
        have hb : sizeOf l ≤ N := by simp at ht; omega
        rw [searchOptChildren, ih.2 l hb mn q]
        by_cases hm : titleMatches q (MenuItemConfig.mk id' ti p (some l) o pm).title
        · simp [MenuItemConfig.title] at hm
          simp [preorderOpt, MenuItemConfig.title, hm]
        · simp [MenuItemConfig.title] at hm
          simp [preorderOpt, MenuItemConfig.title, hm]
    · intro L hL mn q res
      cases L with
      | nil => simp [searchList, preorderList]
      | cons c cs =>
        have hc : sizeOf c ≤ N := by simp at hL; omega
        have hcs : sizeOf cs ≤ N := by simp at hL; omega
        rw [searchList, ih.2 cs hcs mn q, ih.1 c hc mn q, preorderList,
          List.filter_append, List.map_append, List.append_assoc]

theorem searchItem_eq (t : MenuItemConfig) (mn : String) (q : List Char)
    (res : List (String × MenuItemConfig)) :
    searchItem t mn q res
      = res ++ ((preorder t).filter (fun c => titleMatches q c.title)).map
          (fun c => (mn, c)) :=
  (search_aux (sizeOf t)).1 t le_rfl mn q res

theorem names_builders_ne_nil {s : ScopedRegistry} (h : SInv s) {n : String}
    (hn : n ∈ s.getMenuNames) : buildersOf s n ≠ [] := by
  have h1 : (alistLookup s.builders n).isSome :=
    (alistLookup_isSome_iff_mem_keys _ _).mpr hn
  cases hl : alistLookup s.builders n with
  | none => rw [hl] at h1; cases h1
  | some l =>
    have := h.1 n l hl
    simp [buildersOf, hl, this]

theorem searchMenusLoop_spec (names : List String) :
    ∀ (s : ScopedRegistry) (q : List Char) (res : List (String × MenuItemConfig)),
      SInv s → (∀ n, n ∈ names → buildersOf s n ≠ []) →
      (searchMenusLoop names s q res).1
        = res ++ names.flatMap (fun n =>
            ((preorder (buildMenu (buildersOf s n) n)).filter
              (fun c => titleMatches q c.title)).map (fun c => (n, c))) := by
  induction names with
  | nil => intro s q res _ _; simp [searchMenusLoop]
  | cons n ns ih =>
    intro s q res hinv hall
    have hb : buildersOf s n ≠ [] := hall n (by simp)
    have hsome : (s.getMenu n).menuResult = some (buildMenu (buildersOf s n) n) := by
      rw [getMenu_menuResult n hinv, if_neg]
      simpa [List.isEmpty_iff] using hb
    rw [searchMenusLoop]
    simp only [hsome]
    rw [ih (s.getMenu n).state q _ (SInv_getMenu s n hinv)
      (fun m hm => by rw [buildersOf_getMenu_state]; exact hall m (by simp [hm]))]
    rw [searchItem_eq, List.flatMap_cons, List.append_assoc]
    congr 1
    congr 1
    apply List.flatMap_congr
    intro m hm
    rw [buildersOf_getMenu_state]

/-- Claim C8: `searchMenusByTitle(term)` returns, across every known menu in
`getMenuNames()` order, exactly the nodes whose lowercased title contains the
lowercased term as a substring, paired with the owning menu name, in pre-order
traversal order with no deduplication; and on a registry holding items titled
"User List" and "Settings", searching "user" returns exactly the one match
referencing "User List". -/
theorem searchMenusByTitle_spec :
    (∀ s, SReachable s → ∀ term,
      (searchMenusByTitle s term).1
        = s.getMenuNames.flatMap (fun n =>
            ((preorder (buildMenu (buildersOf s n) n)).filter
              (fun c => titleMatches (lowerChars term) c.title)).map (fun c => (n, c))))
    ∧ (searchMenusByTitle c8State "user").1 = [("main", userItem)]
    ∧ userItem.title = "User List" := by
  refine ⟨?_, ?_, rfl⟩
  · intro s hs term
    have hinv := SReachable_SInv hs
    rw [searchMenusByTitle]
    rw [searchMenusLoop_spec s.getMenuNames s (lowerChars term) [] hinv
      (fun n hn => names_builders_ne_nil hinv hn)]
    simp
  · show (searchMenusLoop ["main"] c8State (lowerChars "user") []).1 = [("main", userItem)]
    simp only [searchMenusLoop]
    rw [c8_getMenu_eval]
    rfl

/-- Witness for the C8 theorem at concrete inputs. -/
theorem searchMenusByTitle_spec_witness :
    (searchMenusByTitle c8State "user").1
      = c8State.getMenuNames.flatMap (fun n =>
          ((preorder (buildMenu (buildersOf c8State n) n)).filter
            (fun c => titleMatches (lowerChars "user") c.title)).map (fun c => (n, c))) :=
  searchMenusByTitle_spec.1 c8State ⟨[SOp.register "main" mainBuilder], rfl⟩ "user"

theorem idsOf_mk (i ti : String) (p : Option String) (cs : Option (List MenuItemConfig))
    (o : Option Int) (pm : Option String) :
    idsOf (.mk i ti p cs o pm) = i :: idsOfOpt cs := by
  simp [idsOf, idsOfOpt, preorder, MenuItemConfig.id]

theorem codeWarnCount_mk (i ti : String) (p : Option String)
    (cs : Option (List MenuItemConfig)) (o : Option Int) (pm : Option String) :
    codeWarnCount (.mk i ti p cs o pm)
      = codeWarnItem (.mk i ti p cs o pm) + codeWarnOpt cs := by
  simp [codeWarnCount, codeWarnOpt, preorder]

theorem idsOfList_cons (c : MenuItemConfig) (cs : List MenuItemConfig) :
    idsOfList (c :: cs) = idsOf c ++ idsOfList cs := by
  simp [idsOfList, idsOf, preorderList]

theorem codeWarnList_cons (c : MenuItemConfig) (cs : List MenuItemConfig) :
    codeWarnList (c :: cs) = codeWarnCount c + codeWarnList cs := by
  simp [codeWarnList, codeWarnCount, preorderList]

theorem seenAfter_append (l₁ l₂ : List String) : ∀ seen,
    seenAfter (l₁ ++ l₂) seen = seenAfter l₂ (seenAfter l₁ seen) := by
  induction l₁ with
  | nil => intro seen; rfl
  | cons i rest ih => intro seen; rw [List.cons_append, seenAfter, seenAfter, ih]

theorem countDups_append (l₁ l₂ : List String) : ∀ seen,
    countDups (l₁ ++ l₂) seen
      = countDups l₁ seen + countDups l₂ (seenAfter l₁ seen) := by
  induction l₁ with
  | nil => intro seen; simp [countDups, seenAfter]
  | cons i rest ih =>
    intro seen
    rw [List.cons_append, countDups, countDups, seenAfter, ih]
    omega

theorem countDups_card (l : List String) : ∀ seen : List String,
    countDups l seen = l.length - (l.toFinset \ seen.toFinset).card := by
  induction l with
  | nil => intro seen; simp [countDups]
  | cons i rest ih =>
    intro seen
    rw [countDups]
    by_cases h : i ∈ seen
    · rw [if_pos h, if_pos h, ih seen]
      have hmem : i ∈ seen.toFinset := by simpa [List.mem_toFinset] using h
      have hsub : (i :: rest).toFinset \ seen.toFinset = rest.toFinset \ seen.toFinset := by
        rw [List.toFinset_cons]
        exact Finset.insert_sdiff_of_mem _ hmem
      have hle : (rest.toFinset \ seen.toFinset).card ≤ rest.length :=
        le_trans (Finset.card_le_card Finset.sdiff_subset) rest.toFinset_card_le
      rw [hsub, List.length_cons]
      omega
    · rw [if_neg h, if_neg h, ih (seen ++ [i])]
      have hiS : i ∉ seen.toFinset := by simpa [List.mem_toFinset] using h
      have h2 : (seen ++ [i]).toFinset = insert i seen.toFinset := by
        ext a
        simp [List.mem_toFinset, List.mem_append, or_comm]
      have key : ((i :: rest).toFinset \ seen.toFinset).card
          = (rest.toFinset \ (seen ++ [i]).toFinset).card + 1 := by
        rw [List.toFinset_cons, h2, Finset.sdiff_insert,
          Finset.insert_sdiff_of_not_mem _ hiS]
        by_cases hir : i ∈ rest.toFinset \ seen.toFinset
        · rw [Finset.card_insert_of_mem hir, Finset.card_erase_of_mem hir]
          have hpos : 0 < (rest.toFinset \ seen.toFinset).card :=
            Finset.card_pos.mpr ⟨i, hir⟩
          omega
        · rw [Finset.card_insert_of_not_mem hir, Finset.erase_eq_of_not_mem hir]
      have hle : (rest.toFinset \ (seen ++ [i]).toFinset).card ≤ rest.length :=
        le_trans (Finset.card_le_card Finset.sdiff_subset) rest.toFinset_card_le
      rw [key, List.length_cons]
      omega

theorem validateItem_unfold (i ti : String) (p : Option String)
    (cs : Option (List MenuItemConfig)) (o : Option Int) (pm : Option String)
    (path seen errs warns : List String) :
    validateItem (.mk i ti p cs o pm) path ⟨seen, errs, warns⟩
      = validateOptChildren cs (path ++ [i])
          ⟨(if i ∈ seen then seen else seen ++ [i]),
           errs ++ (if i ∈ seen
             then [dupIdError i (String.intercalate " > " (path ++ [i]))] else []),
           warns ++ (if childrenNonempty cs && strTruthy p then [bothWarning i] else [])
             ++ (if cs.isNone && !(strTruthy p)
               then [leafWarning i (String.intercalate " > " (path ++ [i]))] else [])⟩ := by
  rw [validateItem]
  by_cases h1 : i ∈ seen <;>
    by_cases h2 : (childrenNonempty cs && strTruthy p) = true <;>
      by_cases h3 : (cs.isNone && !(strTruthy p)) = true <;>
        simp [h1, h2, h3]

theorem length_ite_singleton {α : Type} (c : Prop) [Decidable c] (x : α) :
    (if c then [x] else []).length = if c then 1 else 0 := by
  by_cases h : c <;> simp [h]

theorem validate_aux (N : Nat) :
    (∀ t : MenuItemConfig, sizeOf t ≤ N → ∀ path acc,
      (validateItem t path acc).errors.length
          = acc.errors.length + countDups (idsOf t) acc.seen
      ∧ (validateItem t path acc).warnings.length
          = acc.warnings.length + codeWarnCount t
      ∧ (validateItem t path acc).seen = seenAfter (idsOf t) acc.seen) ∧
    (∀ L : List MenuItemConfig, sizeOf L ≤ N → ∀ path acc,
      (validateList L path acc).errors.length
          = acc.errors.length + countDups (idsOfList L) acc.seen
      ∧ (validateList L path acc).warnings.length
          = acc.warnings.length + codeWarnList L
      ∧ (validateList L path acc).seen = seenAfter (idsOfList L) acc.seen) := by
  induction N with
  | zero =>
    constructor
    · intro t h
      exfalso
      obtain ⟨i, ti, p, cs, o, pm⟩ := t
      simp at h
    · intro L h
      exfalso
      cases L with
      | nil => simp at h
      | cons c cs => simp at h
  | succ N ih =>
    constructor
    · intro t ht path acc
      obtain ⟨i, ti, p, cs, o, pm⟩ := t
      obtain ⟨seen, errs, warns⟩ := acc
      rw [validateItem_unfold, idsOf_mk, codeWarnCount_mk, countDups]
      cases cs with
      | none =>
        simp only [validateOptChildren, idsOfOpt, preorderOpt, List.map_nil,
          countDups, seenAfter, codeWarnOpt, List.sum_nil]
        refine ⟨?_, ?_, trivial⟩
        · simp [length_ite_singleton]
        · simp [length_ite_singleton, codeWarnItem, MenuItemConfig.children,
            MenuItemConfig.path, childrenNonempty]
      | some l =>
        have hb : sizeOf l ≤ N := by simp at ht; omega
        simp only [validateOptChildren, idsOfOpt, preorderOpt, codeWarnOpt]
        obtain ⟨he, hw, hs⟩ := ih.2 l hb (path ++ [i])
          ⟨(if i ∈ seen then seen else seen ++ [i]),
           errs ++ (if i ∈ seen
             then [dupIdError i (String.intercalate " > " (path ++ [i]))] else []),
           warns ++ (if childrenNonempty (some l) && strTruthy p
             then [bothWarning i] else [])
             ++ (if (some l : Option (List MenuItemConfig)).isNone && !(strTruthy p)
               then [leafWarning i (String.intercalate " > " (path ++ [i]))] else [])⟩
        refine ⟨?_, ?_, ?_⟩
        · rw [he]
          simp only [idsOfList, List.length_append, length_ite_singleton]
          by_cases h1 : i ∈ seen <;> (simp [h1, seenAfter]; try omega)
        · rw [hw]
          simp only [List.length_append, length_ite_singleton, codeWarnItem,
            MenuItemConfig.children, MenuItemConfig.path, codeWarnList]
          omega
        · rw [hs]
          simp only [idsOfList, seenAfter]
    · intro L hL path acc
      cases L with
      | nil =>
        simp [validateList, idsOfList, preorderList, countDups, seenAfter,
          codeWarnList]
      | cons c cs =>
        have hc : sizeOf c ≤ N := by simp at hL; omega
        have hcs : sizeOf cs ≤ N := by simp at hL; omega
        rw [validateList]
        obtain ⟨he1, hw1, hs1⟩ := ih.1 c hc path acc
        obtain ⟨he2, hw2, hs2⟩ := ih.2 cs hcs path (validateItem c path acc)
        rw [idsOfList_cons, codeWarnList_cons]
        refine ⟨?_, ?_, ?_⟩
        · rw [he2, he1, hs1, countDups_append]
          omega
        · rw [hw2, hw1]
          omega
        · rw [hs2, hs1, seenAfter_append]

theorem validateMenusLoop_spec (names : List String) :
    ∀ (s : ScopedRegistry) (errs warns : List String),
      SInv s → (∀ n, n ∈ names → buildersOf s n ≠ []) →
      (validateMenusLoop names s errs warns).1.1.length
        = errs.length + (names.map (fun n =>
            countDups (idsOf (buildMenu (buildersOf s n) n)) [])).sum
      ∧ (validateMenusLoop names s errs warns).1.2.length
        = warns.length + (names.map (fun n =>
            codeWarnCount (buildMenu (buildersOf s n) n))).sum := by
  induction names with
  | nil => intro s errs warns _ _; simp [validateMenusLoop]
  | cons n ns ih =>
    intro s errs warns hinv hall
    have hb : buildersOf s n ≠ [] := hall n (by simp)
    have hsome : (s.getMenu n).menuResult = some (buildMenu (buildersOf s n) n) := by
      rw [getMenu_menuResult n hinv, if_neg]
      simpa [List.isEmpty_iff] using hb
    rw [validateMenusLoop]
    simp only [hsome]
    obtain ⟨he, hw, _⟩ := (validate_aux (sizeOf (buildMenu (buildersOf s n) n))).1
      (buildMenu (buildersOf s n) n) le_rfl [] ⟨[], errs, warns⟩
    obtain ⟨He, Hw⟩ := ih (s.getMenu n).state
      (validateItem (buildMenu (buildersOf s n) n) [] ⟨[], errs, warns⟩).errors
      (validateItem (buildMenu (buildersOf s n) n) [] ⟨[], errs, warns⟩).warnings
      (SInv_getMenu s n hinv)
      (fun m hm => by rw [buildersOf_getMenu_state]; exact hall m (by simp [hm]))
    constructor
    · rw [He, he]
      simp only [List.map_cons, List.sum_cons]
      rw [List.map_congr_left (fun m _ => by
        rw [buildersOf_getMenu_state] :
        ∀ m ∈ ns, countDups (idsOf (buildMenu (buildersOf (s.getMenu n).state m) m)) []
          = countDups (idsOf (buildMenu (buildersOf s m) m)) [])]
      omega
    · rw [Hw, hw]
      simp only [List.map_cons, List.sum_cons]
      rw [List.map_congr_left (fun m _ => by
        rw [buildersOf_getMenu_state] :
        ∀ m ∈ ns, codeWarnCount (buildMenu (buildersOf (s.getMenu n).state m) m)
          = codeWarnCount (buildMenu (buildersOf s m) m))]
      omega

/-- Counterexample to claim C6.  The claim warns for every node having both `children`
and a `path`; the node `emptyChildrenItem` has a `children` field (the empty
array) and a path, so the claim demands one warning, but the code's guard
`item.children.length > 0` makes it report none (and no error either, so the
result is fully valid). -/
theorem validateMenus_empty_children_divergence :
    (validateMenus c6State).1.warnings = []
    ∧ (validateMenus c6State).1.errors = []
    ∧ (validateMenus c6State).1.valid = true
    ∧ claimWarnCount (.mk "root" "root" none (some [emptyChildrenItem]) none none) = 1
    ∧ (c6State.getMenu "m").menuResult
        = some (.mk "root" "root" none (some [emptyChildrenItem]) none none) := by
  have hnames : ScopedRegistry.getMenuNames c6State = ["m"] := rfl
  have hloop : (validateMenusLoop ["m"] c6State [] []).1 = ([], []) := by
    simp only [validateMenusLoop]
    rw [c6_getMenu_eval]
    rfl
  have hvm : (validateMenus c6State).1 = ⟨true, [], []⟩ := by
    simp only [validateMenus, hnames, hloop, List.isEmpty_nil]
  refine ⟨?_, ?_, ?_, rfl, c6_getMenu_eval⟩
  · rw [hvm]
  · rw [hvm]
  · rw [hvm]

/-- Claim C6 (amended): on every reachable registry state `validateMenus` returns
`valid` true exactly when the error list is empty; it reports exactly one
error per duplicate id beyond its first pre-order occurrence within each
menu's tree — the error count equals total pre-order ids minus distinct ids,
summed over `getMenuNames()` — and exactly one warning per node with a
NONEMPTY children array and a non-empty path string plus one per node whose
children FIELD is absent and whose path is absent or empty (JS truthiness;
this is where the claim as stated fails).  The embedded walk is a pure fold:
no tree is mutated. -/
theorem validateMenus_amended :
    ∀ s, SReachable s →
      ((validateMenus s).1.valid = true ↔ (validateMenus s).1.errors = [])
      ∧ (validateMenus s).1.errors.length
          = (s.getMenuNames.map (fun n =>
              (idsOf (buildMenu (buildersOf s n) n)).length
                - (idsOf (buildMenu (buildersOf s n) n)).dedup.length)).sum
      ∧ (validateMenus s).1.warnings.length
          = (s.getMenuNames.map (fun n =>
              codeWarnCount (buildMenu (buildersOf s n) n))).sum := by
  intro s hs
  have hinv := SReachable_SInv hs
  obtain ⟨He, Hw⟩ := validateMenusLoop_spec s.getMenuNames s [] []
    hinv (fun n hn => names_builders_ne_nil hinv hn)
  have hclosed : ∀ l : List String, countDups l [] = l.length - l.dedup.length := by
    intro l
    rw [countDups_card]
    simp [List.card_toFinset]
  refine ⟨?_, ?_, ?_⟩
  · simp only [validateMenus]
    exact List.isEmpty_iff
  · simp only [validateMenus]
    rw [He]
    simp only [List.length_nil, Nat.zero_add]
    exact congrArg List.sum (List.map_congr_left (fun n _ => hclosed _))
  · simp only [validateMenus]
    rw [Hw]
    simp

/-- Witness for the C6 amended theorem at a concrete registry holding a menu
with a duplicated id. -/
theorem validateMenus_amended_witness :
    ((validateMenus c6DupState).1.valid = true ↔ (validateMenus c6DupState).1.errors = [])
    ∧ (validateMenus c6DupState).1.errors.length
        = (c6DupState.getMenuNames.map (fun n =>
            (idsOf (buildMenu (buildersOf c6DupState n) n)).length
              - (idsOf (buildMenu (buildersOf c6DupState n) n)).dedup.length)).sum
    ∧ (validateMenus c6DupState).1.warnings.length
        = (c6DupState.getMenuNames.map (fun n =>
            codeWarnCount (buildMenu (buildersOf c6DupState n) n))).sum :=
  validateMenus_amended c6DupState ⟨[SOp.register "d" dupBuilder], rfl⟩

end VueMenu
